import Mathlib

/-!
Verification development for `fetch_stock_metrics_with_valuation.py`
(J-Quants stock valuation fetcher).

Modelling conventions (shallow embedding of the Python source):

* Dates. The source compares ISO-8601 date strings (`'YYYY-MM-DD'`)
  lexicographically, which agrees with chronological order.  We embed a date
  as a `Nat` day count, with `0` reserved for the Python empty string `''`
  (a missing `CurrentPeriodEndDate` / `DisclosedDate`, the `.get(…, '')`
  default).  Real dates are positive.  The source's trailing window start
  `today - timedelta(days=3*365)` becomes `today - 1095` on day counts.

* Numbers.  Python floats are embedded as exact rationals `ℚ`.  `round(x, 2)`
  is embedded as exact rational rounding to two decimal places (`round2`);
  the binary-float and half-even artefacts of Python's `round` are abstracted
  away (no claim depends on a half-way case).

* Raw JSON fields.  Every statement field the source reads with `stmt.get(…)`
  is a string, absent, or null in the API response.  `RawVal` abstracts such a
  raw value by how `get_valid_float_value` treats it: Python-falsy or blank
  (`none_`, `blank`), a string parsing to a decimal number (`numStr q`), or a
  non-blank string that fails `float(…)` (`badStr`).

* Mutation.  `select_best_financial_data` attaches synthetic keys
  (`FallbackEarningsPerShare`, `FallbackEPSPeriod`,
  `AnnualizedEarningsPerShare`) to the selected dict.  API dicts never carry
  those keys, so the selected statement is embedded as a `Selected` record:
  the original statement plus the three optional synthetic fields.

* Sorting.  `sorted(…, key=…, reverse=True)` is a stable descending sort by
  the string pair `(CurrentPeriodEndDate, DisclosedDate)`.  A stable sort
  w.r.t. a total preorder is unique, so the insertion sort `sortDesc` below
  (stable, descending by the lexicographic key order `lexGe`) computes exactly
  Python's result.

* I/O.  Each HTTP call is embedded by its observable outcome (`Resp`,
  `PageResp`): successful payload, non-2xx status, or raised exception.
-/

/-- A raw field value as seen by `get_valid_float_value`:
`none_` = Python-falsy value (absent key, JSON null, `''`);
`blank` = non-empty but whitespace-only string (truthy, `strip()` empty);
`numStr q` = string that `float(…)` parses to the number `q`;
`badStr` = non-blank string on which `float(…)` raises. -/
inductive RawVal where
  | none_ : RawVal
  | blank : RawVal
  | numStr : ℚ → RawVal
  | badStr : RawVal
deriving DecidableEq

/-- `get_valid_float_value(values)` (source lines 24–32): return the first
candidate that passes the truthiness/blank check and parses as a float;
parse failures continue to the next candidate; otherwise `None`. -/
def get_valid_float_value : List RawVal → Option ℚ
  | [] => none
  | RawVal.numStr q :: _ => some q
  | RawVal.none_ :: rest => get_valid_float_value rest
  | RawVal.blank :: rest => get_valid_float_value rest
  | RawVal.badStr :: rest => get_valid_float_value rest

/-- Spec-side reading of one candidate: the value it "parses as a decimal
number" to, if any (used to compare `get_valid_float_value` with the spec's
first-parse contract). -/
def parsesAsDecimal : RawVal → Option ℚ
  | RawVal.numStr q => some q
  | _ => none

/-- `TypeOfCurrentPeriod` values distinguished by the source:
`'FY'`, `'1Q'`, `'2Q'`, `'3Q'`, `'4Q'`, or anything else. -/
inductive PeriodType where
  | FY | Q1 | Q2 | Q3 | Q4 | other
deriving DecidableEq

/-- One financial statement record, restricted to the fields the source
reads.  Dates are day counts (`0` = missing), raw numeric fields are
`RawVal`s. -/
structure Stmt where
  CurrentPeriodEndDate : Nat
  DisclosedDate : Nat
  TypeOfCurrentPeriod : PeriodType
  EarningsPerShare : RawVal := RawVal.none_
  NonConsolidatedEarningsPerShare : RawVal := RawVal.none_
  ForecastEarningsPerShare : RawVal := RawVal.none_
  ForecastNonConsolidatedEarningsPerShare : RawVal := RawVal.none_
  BookValuePerShare : RawVal := RawVal.none_
  NonConsolidatedBookValuePerShare : RawVal := RawVal.none_
  Equity : RawVal := RawVal.none_
  NonConsolidatedEquity : RawVal := RawVal.none_
  NumberOfIssuedAndOutstandingSharesAtTheEndOfFiscalYearIncludingTreasuryStock : RawVal := RawVal.none_
  AverageNumberOfShares : RawVal := RawVal.none_
  NumberOfTreasuryStockAtTheEndOfFiscalYear : RawVal := RawVal.none_
deriving DecidableEq

/-- Python sort key `(x.get('CurrentPeriodEndDate',''), x.get('DisclosedDate',''))`. -/
def stmtKey (s : Stmt) : Nat × Nat := (s.CurrentPeriodEndDate, s.DisclosedDate)

/-- Descending comparison on sort keys: Python tuple order `a ≥ b`. -/
def lexGe (a b : Nat × Nat) : Prop :=
  b.1 < a.1 ∨ (a.1 = b.1 ∧ b.2 ≤ a.2)

instance (a b : Nat × Nat) : Decidable (lexGe a b) := by
  unfold lexGe; infer_instance

theorem lexGe_refl (a : Nat × Nat) : lexGe a a := Or.inr ⟨rfl, le_refl _⟩

theorem lexGe_trans {a b c : Nat × Nat} (h1 : lexGe a b) (h2 : lexGe b c) :
    lexGe a c := by
  rcases h1 with h1 | ⟨h1, h1'⟩ <;> rcases h2 with h2 | ⟨h2, h2'⟩
  · exact Or.inl (h2.trans h1)
  · exact Or.inl (h2 ▸ h1)
  · exact Or.inl (h1 ▸ h2)
  · exact Or.inr ⟨h1.trans h2, h2'.trans h1'⟩

theorem lexGe_total (a b : Nat × Nat) : lexGe a b ∨ lexGe b a := by
  unfold lexGe; omega

/-- Stable insertion (descending by `key`): place `x` before the first
element whose key is not above `x`'s. -/
def insertDesc {α : Type} (key : α → Nat × Nat) (x : α) : List α → List α
  | [] => [x]
  | y :: ys =>
    if lexGe (key x) (key y) then x :: y :: ys else y :: insertDesc key x ys

/-- Stable descending sort by `key`; equals Python's
`sorted(l, key=key, reverse=True)` (stable sorts w.r.t. a total preorder are
unique). -/
def sortDesc {α : Type} (key : α → Nat × Nat) : List α → List α
  | [] => []
  | x :: xs => insertDesc key x (sortDesc key xs)

theorem mem_insertDesc {α : Type} (key : α → Nat × Nat) (x : α) (l : List α)
    (t : α) : t ∈ insertDesc key x l ↔ t = x ∨ t ∈ l := by
  induction l with
  | nil => simp [insertDesc]
  | cons y ys ih =>
    by_cases h : lexGe (key x) (key y)
    · simp [insertDesc, h]
    · simp [insertDesc, h, ih]
      tauto

theorem mem_sortDesc {α : Type} (key : α → Nat × Nat) (l : List α) (t : α) :
    t ∈ sortDesc key l ↔ t ∈ l := by
  induction l with
  | nil => simp [sortDesc]
  | cons x xs ih => simp [sortDesc, mem_insertDesc, ih]

/-- The relation `sortDesc` sorts by: keys weakly descending. -/
def keyGe {α : Type} (key : α → Nat × Nat) (a b : α) : Prop :=
  lexGe (key a) (key b)

theorem pairwise_insertDesc {α : Type} (key : α → Nat × Nat) (x : α)
    {l : List α} (h : l.Pairwise (keyGe key)) :
    (insertDesc key x l).Pairwise (keyGe key) := by
  induction l with
  | nil => simp [insertDesc]
  | cons y ys ih =>
    rcases List.pairwise_cons.mp h with ⟨hy, hys⟩
    by_cases hxy : lexGe (key x) (key y)
    · rw [insertDesc, if_pos hxy]
      refine List.pairwise_cons.mpr ⟨?_, h⟩
      intro t ht
      rcases List.mem_cons.mp ht with rfl | ht
      · exact hxy
      · exact lexGe_trans hxy (hy t ht)
    · rw [insertDesc, if_neg hxy]
      refine List.pairwise_cons.mpr ⟨?_, ih hys⟩
      intro t ht
      rcases (mem_insertDesc key x ys t).mp ht with rfl | ht
      · rcases lexGe_total (key t) (key y) with hc | hc
        · exact absurd hc hxy
        · exact hc
      · exact hy t ht

theorem pairwise_sortDesc {α : Type} (key : α → Nat × Nat) (l : List α) :
    (sortDesc key l).Pairwise (keyGe key) := by
  induction l with
  | nil => simp [sortDesc]
  | cons x xs ih => exact pairwise_insertDesc key x ih

/-- First element of `l` on which `p` yields a value, together with that
value (the source's scan loops `for stmt in …: if usable: return …`). -/
def findFirst {α β : Type} (p : α → Option β) : List α → Option (α × β)
  | [] => none
  | x :: xs =>
    match p x with
    | some v => some (x, v)
    | none => findFirst p xs

theorem findFirst_eq_some {α β : Type} (p : α → Option β) (l : List α)
    (s : α) (v : β) (h : findFirst p l = some (s, v)) :
    s ∈ l ∧ p s = some v := by
  induction l with
  | nil => simp [findFirst] at h
  | cons x xs ih =>
    by_cases hx : (p x).isSome
    · rcases Option.isSome_iff_exists.mp hx with ⟨u, hu⟩
      simp [findFirst, hu] at h
      rcases h with ⟨rfl, rfl⟩
      exact ⟨List.mem_cons_self _ _, hu⟩
    · have hx' : p x = none := Option.not_isSome_iff_eq_none.mp hx
      simp [findFirst, hx'] at h
      rcases ih h with ⟨hmem, hp⟩
      exact ⟨List.mem_cons_of_mem _ hmem, hp⟩

theorem findFirst_eq_none {α β : Type} (p : α → Option β) (l : List α) :
    findFirst p l = none ↔ ∀ t ∈ l, p t = none := by
  induction l with
  | nil => simp [findFirst]
  | cons x xs ih =>
    cases hx : p x with
    | some v => simp [findFirst, hx]
    | none => simp [findFirst, hx, ih]

/-- In a pairwise weakly-descending list, the first hit of a scan ranks at
least as high as every other element on which the scan predicate holds. -/
theorem findFirst_max {α β : Type} (key : α → Nat × Nat) (p : α → Option β)
    (l : List α) (hl : l.Pairwise (keyGe key)) (s : α) (v : β)
    (h : findFirst p l = some (s, v)) :
    ∀ t ∈ l, p t ≠ none → lexGe (key s) (key t) := by
  induction l with
  | nil => simp [findFirst] at h
  | cons x xs ih =>
    rcases List.pairwise_cons.mp hl with ⟨hx, hxs⟩
    intro t ht hpt
    cases hpx : p x with
    | some u =>
      simp [findFirst, hpx] at h
      rcases h with ⟨rfl, rfl⟩
      rcases List.mem_cons.mp ht with rfl | ht
      · exact lexGe_refl _
      · exact hx t ht
    | none =>
      simp [findFirst, hpx] at h
      rcases List.mem_cons.mp ht with rfl | ht
      · exact absurd hpx hpt
      · exact ih hxs h t ht hpt

/-- Future-date exclusion inside `select_best_financial_data`
(source lines 44–55): keep statements with a non-empty
`CurrentPeriodEndDate` that is `≤ today`. -/
def filterFuture (today : Nat) (l : List Stmt) : List Stmt :=
  l.filter (fun s =>
    decide (s.CurrentPeriodEndDate ≠ 0 ∧ s.CurrentPeriodEndDate ≤ today))

/-- Trailing 3-year window filter in `get_comprehensive_financial_data`
(source lines 164–171): keep statements with
`CurrentPeriodEndDate ≥ today − 3*365 days` (the empty date `0` fails this
whenever the window start is positive, matching `'' >= start_date`). -/
def filter3y (today : Nat) (l : List Stmt) : List Stmt :=
  l.filter (fun s => decide (today - 1095 ≤ s.CurrentPeriodEndDate))

/-- The loop test `if eps and eps != 0` applied to the parse of
`[EarningsPerShare, NonConsolidatedEarningsPerShare]`: the trailing EPS when
it is present and non-zero (a `0.0` parse is Python-falsy). -/
def usable_eps (s : Stmt) : Option ℚ :=
  match get_valid_float_value
      [s.EarningsPerShare, s.NonConsolidatedEarningsPerShare] with
  | some q => if q = 0 then none else some q
  | none => none

/-- The annual partition `fy_statements` (source line 58), taken after the
future-date exclusion. -/
def fy_of (today : Nat) (l : List Stmt) : List Stmt :=
  (filterFuture today l).filter
    (fun s => decide (s.TypeOfCurrentPeriod = PeriodType.FY))

/-- The quarterly partition `quarterly_statements` (source line 59). -/
def quarterly_of (today : Nat) (l : List Stmt) : List Stmt :=
  (filterFuture today l).filter (fun s =>
    decide (s.TypeOfCurrentPeriod = PeriodType.Q1 ∨
      s.TypeOfCurrentPeriod = PeriodType.Q2 ∨
      s.TypeOfCurrentPeriod = PeriodType.Q3 ∨
      s.TypeOfCurrentPeriod = PeriodType.Q4))

/-- The selected statement: the original record plus the synthetic keys the
source attaches by in-place dict mutation (`FallbackEarningsPerShare` and
`AnnualizedEarningsPerShare` are stored via `str(…)`, which round-trips, so
they are kept as the rational they denote). -/
structure Selected where
  stmt : Stmt
  FallbackEarningsPerShare : Option ℚ := none
  FallbackEPSPeriod : Option Nat := none
  AnnualizedEarningsPerShare : Option ℚ := none
deriving DecidableEq

/-- `select_best_financial_data(statements)` (source lines 34–130) with the
current date passed explicitly: drop future-dated records, then prefer the
annual (FY) partition — first annual statement with usable EPS in descending
`(period end, disclosure)` order, else the most recent annual statement with
an EPS fallback scanned from the older annual statements — else repeat over
the quarterly partition, annualizing a Q1/Q2/Q3 EPS by `× 4`. -/
def select_best_financial_data (today : Nat) (statements : List Stmt) :
    Option Selected :=
  if statements = [] then none
  else if filterFuture today statements = [] then none
  else if fy_of today statements ≠ [] then
    match findFirst usable_eps (sortDesc stmtKey (fy_of today statements)) with
    | some (s, _) => some { stmt := s }
    | none =>
      match sortDesc stmtKey (fy_of today statements) with
      | [] => none
      | sel :: rest =>
        match findFirst usable_eps rest with
        | some (p, q) =>
          some { stmt := sel, FallbackEarningsPerShare := some q,
                 FallbackEPSPeriod := some p.CurrentPeriodEndDate }
        | none => some { stmt := sel }
  else if quarterly_of today statements ≠ [] then
    match findFirst usable_eps
        (sortDesc stmtKey (quarterly_of today statements)) with
    | some (s, q) =>
      if s.TypeOfCurrentPeriod = PeriodType.Q1 ∨
          s.TypeOfCurrentPeriod = PeriodType.Q2 ∨
          s.TypeOfCurrentPeriod = PeriodType.Q3 then
        some { stmt := s, AnnualizedEarningsPerShare := some (q * 4) }
      else some { stmt := s }
    | none =>
      match sortDesc stmtKey (quarterly_of today statements) with
      | [] => none
      | sel :: _ => some { stmt := sel }
  else none

/-- `round(x, 2)` embedded as exact rational rounding to 2 decimal places. -/
def round2 (x : ℚ) : ℚ := (round (100 * x) : ℤ) / 100

/-- The trailing-EPS resolution chain of `get_stock_data`
(source lines 310–327): start from the statement's own trailing EPS; only
when that is absent or zero try the fallback EPS (used if `> 0`); only when
still absent or zero try the annualized EPS (used if `> 0`). -/
def trailing_eps (sel : Selected) : Option ℚ :=
  let eps0 := get_valid_float_value
    [sel.stmt.EarningsPerShare, sel.stmt.NonConsolidatedEarningsPerShare]
  let eps1 :=
    if eps0 = none ∨ eps0 = some 0 then
      match sel.FallbackEarningsPerShare with
      | some f => if 0 < f then some f else eps0
      | none => eps0
    else eps0
  if eps1 = none ∨ eps1 = some 0 then
    match sel.AnnualizedEarningsPerShare with
    | some a => if 0 < a then some a else eps1
    | none => eps1
  else eps1

/-- `PER(最新)` (source lines 329–333): `round(price / eps, 2)` when the
resolved trailing EPS is positive, else absent. -/
def per_trailing (latest_price : ℚ) (sel : Selected) : Option ℚ :=
  match trailing_eps sel with
  | some e => if 0 < e then some (round2 (latest_price / e)) else none
  | none => none

/-- The scan test of `search_forecast_eps_in_statements`
(`if forecast_eps and forecast_eps > 0`, source lines 200–205): the forward
EPS (consolidated, else non-consolidated) when it parses and is positive. -/
def usable_forecast (s : Stmt) : Option ℚ :=
  match get_valid_float_value
      [s.ForecastEarningsPerShare,
       s.ForecastNonConsolidatedEarningsPerShare] with
  | some f => if 0 < f then some f else none
  | none => none

/-- `search_forecast_eps_in_statements(statements)` (source lines 180–212):
drop statements with `CurrentPeriodEndDate > today` (an empty date passes,
since `'' <= today`), sort descending by `(period end, disclosure)`, and
return the first positive forward EPS found. -/
def search_forecast_eps_in_statements (today : Nat) (statements : List Stmt) :
    Option ℚ :=
  if statements = [] then none
  else
    (findFirst usable_forecast
        (sortDesc stmtKey
          (statements.filter
            (fun s => decide (s.CurrentPeriodEndDate ≤ today))))).map
      (fun r => r.2)

/-- `PER(予想)` (source lines 335–352): use the selected statement's forward
EPS when positive; otherwise fall back to the whole-collection forecast scan. -/
def per_forecast (latest_price : ℚ) (today : Nat) (sel : Selected)
    (statements : List Stmt) : Option ℚ :=
  let fromSearch : Option ℚ :=
    match search_forecast_eps_in_statements today statements with
    | some f => if 0 < f then some (round2 (latest_price / f)) else none
    | none => none
  match get_valid_float_value
      [sel.stmt.ForecastEarningsPerShare,
       sel.stmt.ForecastNonConsolidatedEarningsPerShare] with
  | some f => if 0 < f then some (round2 (latest_price / f)) else fromSearch
  | none => fromSearch

/-- The plausibility band check `0.05 <= pbr <= 20.0` (source lines 390–399);
`none` stands for the `float('inf')` sentinel used when a hypothesised BPS is
not positive, which never lies in the band. -/
def inBand : Option ℚ → Bool
  | some p => decide (1/20 ≤ p ∧ p ≤ 20)
  | none => false

/-- The manual BPS reconstruction of `get_stock_data`
(source lines 364–407): equity over effective shares, with the
thousands-unit hypothesis checked first against the plausibility band, then
the as-is hypothesis.  Returns the accepted `calculated_bps`. -/
def manual_bps (latest_price : ℚ) (sel : Selected) : Option ℚ :=
  let equity := get_valid_float_value
    [sel.stmt.Equity, sel.stmt.NonConsolidatedEquity]
  let shares := get_valid_float_value
    [sel.stmt.NumberOfIssuedAndOutstandingSharesAtTheEndOfFiscalYearIncludingTreasuryStock,
     sel.stmt.AverageNumberOfShares]
  let treasury := (get_valid_float_value
    [sel.stmt.NumberOfTreasuryStockAtTheEndOfFiscalYear]).getD 0
  match equity, shares with
  | some e, some sh =>
    if e ≠ 0 ∧ sh ≠ 0 then
      let effective_shares := sh - treasury
      if 0 < effective_shares then
        let calculated_bps_raw := e / effective_shares
        let bps_from_thousand := calculated_bps_raw * 1000
        let pbr_from_thousand : Option ℚ :=
          if 0 < bps_from_thousand then some (latest_price / bps_from_thousand)
          else none
        let pbr_direct : Option ℚ :=
          if 0 < calculated_bps_raw then some (latest_price / calculated_bps_raw)
          else none
        if inBand pbr_from_thousand then some bps_from_thousand
        else if inBand pbr_direct then some calculated_bps_raw
        else none
      else none
    else none
  | _, _ => none

/-- `PBR(最新)` (source lines 354–407): direct BPS when positive, else the
manual reconstruction (used when its accepted BPS is positive). -/
def pbr_calc (latest_price : ℚ) (sel : Selected) : Option ℚ :=
  let manualPart : Option ℚ :=
    match manual_bps latest_price sel with
    | some c => if 0 < c then some (round2 (latest_price / c)) else none
    | none => none
  match get_valid_float_value
      [sel.stmt.BookValuePerShare,
       sel.stmt.NonConsolidatedBookValuePerShare] with
  | some b => if 0 < b then some (round2 (latest_price / b)) else manualPart
  | none => manualPart

/-- The financial block of `get_stock_data` (source lines 303–407): select a
statement, then compute `(PER(最新), PER(予想), PBR(最新))`. -/
def financial_ratios (latest_price : ℚ) (today : Nat)
    (statements : List Stmt) : Option ℚ × Option ℚ × Option ℚ :=
  match select_best_financial_data today statements with
  | none => (none, none, none)
  | some sel =>
    (per_trailing latest_price sel,
     per_forecast latest_price today sel statements,
     pbr_calc latest_price sel)

/-- Spec-side EPS resolution for the trailing PER claim: the first
non-zero positive value, in order. -/
def firstPositive : List (Option ℚ) → Option ℚ
  | [] => none
  | none :: rest => firstPositive rest
  | some q :: rest => if 0 < q then some q else firstPositive rest

/-- Spec-side manual PBR reconstruction, written from the claim: effective
shares (= outstanding − treasury) must be strictly positive; the thousands
hypothesis `raw × 1000` is accepted iff its implied PBR lies in `[0.05, 20]`,
else the as-is hypothesis under the same band, else absent.  A hypothesised
BPS that is not positive has implied PBR `+∞` (the source's `float('inf')`),
never in the band; equity/shares values of exactly zero count as absent. -/
def spec_pbr_reconstruction (price : ℚ) (sel : Selected) : Option ℚ :=
  match get_valid_float_value [sel.stmt.Equity, sel.stmt.NonConsolidatedEquity],
    get_valid_float_value
      [sel.stmt.NumberOfIssuedAndOutstandingSharesAtTheEndOfFiscalYearIncludingTreasuryStock,
       sel.stmt.AverageNumberOfShares] with
  | some e, some sh =>
    if e ≠ 0 ∧ sh ≠ 0 then
      let treasury := (get_valid_float_value
        [sel.stmt.NumberOfTreasuryStockAtTheEndOfFiscalYear]).getD 0
      let effective := sh - treasury
      if 0 < effective then
        let raw := e / effective
        if 0 < raw * 1000 ∧ 1/20 ≤ price / (raw * 1000) ∧ price / (raw * 1000) ≤ 20 then
          some (round2 (price / (raw * 1000)))
        else if 0 < raw ∧ 1/20 ≤ price / raw ∧ price / raw ≤ 20 then
          some (round2 (price / raw))
        else none
      else none
    else none
  | _, _ => none

/-- Outcome of one `/fins/statements` page request, as observed by
`get_comprehensive_financial_data` (source lines 139–162). -/
inductive PageResp where
  | ok (statements : List Stmt) (pagination_key : Option Nat)
  | httpError
  | raised
deriving DecidableEq

/-- The pagination loop (source lines 139–162) over the stream of page
outcomes: `none` signals a raised exception (handled by the caller's
`except`), `some acc` the collected statements at loop exit.  An exhausted
outcome stream ends the loop (it cannot occur in the source, which always
receives a response). -/
def fetch_pages : List PageResp → List Stmt → Option (List Stmt)
  | [], acc => some acc
  | PageResp.raised :: _, _ => none
  | PageResp.httpError :: _, acc => some acc
  | PageResp.ok stmts key :: rest, acc =>
    if stmts = [] then some acc
    else
      match key with
      | none => some (acc ++ stmts)
      | some _ => fetch_pages rest (acc ++ stmts)

/-- `get_comprehensive_financial_data` (source lines 132–178): fetch pages
until failure or exhaustion, filter to the trailing 3-year window; a raised
exception discards everything and returns `[]`. -/
def get_comprehensive_financial_data (today : Nat) (pages : List PageResp) :
    List Stmt :=
  match fetch_pages pages [] with
  | some all_statements => filter3y today all_statements
  | none => []

/-- Outcome of one HTTP call: payload, non-2xx status, or raised exception. -/
inductive Resp (α : Type) where
  | ok (a : α)
  | httpError
  | raised
deriving DecidableEq

/-- One record of `data['daily_quotes']`; `Close` may be null. -/
structure Quote where
  Close : Option ℚ
  Date : Nat
deriving DecidableEq

/-- The external responses one `get_stock_data(code, …)` call can observe:
the `/listed/info` call (payload: the `CompanyName`s of `data['info']`), the
default `/prices/daily_quotes` call, the date-range retry, and the
`/fins/statements` pages. -/
structure StockInput where
  info : Resp (List String)
  price1 : Resp (List Quote)
  price2 : Resp (List Quote)
  pages : List PageResp
deriving DecidableEq

/-- The per-code result row (source lines 232–241); keys romanized:
`コード`/`銘柄名`/`最新株価`/`最新株価日付`/`分析実行日`/`PER(最新)`/
`PER(予想)`/`PBR(最新)`. -/
structure ValuationResult where
  code : Nat
  name : String
  price : Option ℚ
  priceDate : Option Nat
  analysisDate : Option Nat
  perTrailing : Option ℚ
  perForward : Option ℚ
  pbr : Option ℚ
deriving DecidableEq

/-- The `銘柄名` lookup (source lines 244–251): first `CompanyName` of a
successful `/listed/info` payload, else the `''` default (any failure is
swallowed by `except: pass`). -/
def nameOf : Resp (List String) → String
  | Resp.ok (n :: _) => n
  | _ => ""

/-- The price lookup (source lines 254–296): last quote of the default call
when it returns 200; on a non-2xx status, last quote of the date-range retry
when that returns 200; `None` on empty payloads, failed retry, or any raised
exception. -/
def price_result : Resp (List Quote) → Resp (List Quote) → Option Quote
  | Resp.ok qs, _ => qs.getLast?
  | Resp.httpError, Resp.ok qs => qs.getLast?
  | Resp.httpError, _ => none
  | Resp.raised, _ => none

/-- `get_stock_data` (source lines 230–413) over the observed responses:
always returns a result row; the financial block runs only when a truthy
(non-null, non-zero) latest price was obtained and the statement fetch
returned a non-empty collection. -/
def get_stock_data (today code : Nat) (inp : StockInput) : ValuationResult :=
  let name := nameOf inp.info
  match price_result inp.price1 inp.price2 with
  | none =>
    { code := code, name := name, price := none, priceDate := none,
      analysisDate := none, perTrailing := none, perForward := none,
      pbr := none }
  | some q =>
    match q.Close with
    | none =>
      { code := code, name := name, price := none,
        priceDate := some q.Date, analysisDate := some today,
        perTrailing := none, perForward := none, pbr := none }
    | some p =>
      if p = 0 then
        { code := code, name := name, price := some p,
          priceDate := some q.Date, analysisDate := some today,
          perTrailing := none, perForward := none, pbr := none }
      else
        let statements := get_comprehensive_financial_data today inp.pages
        let r :=
          if statements = [] then (none, none, none)
          else financial_ratios p today statements
        { code := code, name := name, price := some p,
          priceDate := some q.Date, analysisDate := some today,
          perTrailing := r.1, perForward := r.2.1, pbr := r.2.2 }

/-- `authenticate` (source lines 217–228): error when the refresh token is
missing, or when the token-exchange call fails (`raise_for_status` / network
exception); otherwise the id token. -/
def authenticate (refresh_token : Option String) (authResp : Resp String) :
    Except String String :=
  match refresh_token with
  | none => Except.error "REFRESH_TOKEN missing"
  | some _ =>
    match authResp with
    | Resp.ok idToken => Except.ok idToken
    | _ => Except.error "token exchange failed"

/-- `main` (source lines 415–445) restricted to its control flow: abort with
no per-code processing when authentication fails, else one result row per
code. -/
def main_model (refresh_token : Option String) (authResp : Resp String)
    (today : Nat) (codes : List Nat) (inputs : Nat → StockInput) :
    Option (List ValuationResult) :=
  match authenticate refresh_token authResp with
  | Except.error _ => none
  | Except.ok _ => some (codes.map (fun c => get_stock_data today c (inputs c)))

/-- Blank out the name field (to state that `/listed/info` affects nothing
else). -/
def stripName (r : ValuationResult) : ValuationResult := { r with name := "" }

/-- Blank out the three ratio fields (to state that the statements fetch
affects nothing else). -/
def stripRatios (r : ValuationResult) : ValuationResult :=
  { r with perTrailing := none, perForward := none, pbr := none }

theorem usable_eps_eq_some {s : Stmt} {q : ℚ} (h : usable_eps s = some q) :
    q ≠ 0 ∧ get_valid_float_value
      [s.EarningsPerShare, s.NonConsolidatedEarningsPerShare] = some q := by
  unfold usable_eps at h
  cases hg : get_valid_float_value
      [s.EarningsPerShare, s.NonConsolidatedEarningsPerShare] with
  | none => rw [hg] at h; exact absurd h (by simp)
  | some r =>
    rw [hg] at h
    dsimp only at h
    by_cases hr : r = 0
    · rw [if_pos hr] at h; exact absurd h (by simp)
    · rw [if_neg hr] at h
      cases h
      exact ⟨hr, rfl⟩

theorem usable_eps_eq_none {s : Stmt} :
    usable_eps s = none ↔
      (get_valid_float_value
          [s.EarningsPerShare, s.NonConsolidatedEarningsPerShare] = none ∨
        get_valid_float_value
          [s.EarningsPerShare, s.NonConsolidatedEarningsPerShare] = some 0) := by
  unfold usable_eps
  cases hg : get_valid_float_value
      [s.EarningsPerShare, s.NonConsolidatedEarningsPerShare] with
  | none => simp
  | some r =>
    by_cases hr : r = 0
    · subst hr; simp
    · simp [hr]

theorem usable_forecast_eq_some {s : Stmt} {f : ℚ}
    (h : usable_forecast s = some f) :
    0 < f ∧ get_valid_float_value
      [s.ForecastEarningsPerShare,
       s.ForecastNonConsolidatedEarningsPerShare] = some f := by
  unfold usable_forecast at h
  cases hg : get_valid_float_value
      [s.ForecastEarningsPerShare,
       s.ForecastNonConsolidatedEarningsPerShare] with
  | none => rw [hg] at h; exact absurd h (by simp)
  | some r =>
    rw [hg] at h
    dsimp only at h
    by_cases hr : 0 < r
    · rw [if_pos hr] at h; cases h; exact ⟨hr, rfl⟩
    · rw [if_neg hr] at h; exact absurd h (by simp)

theorem sortDesc_eq_nil_iff {α : Type} (key : α → Nat × Nat) (l : List α) :
    sortDesc key l = [] ↔ l = [] := by
  constructor
  · intro h
    cases l with
    | nil => rfl
    | cons x xs =>
      have hx : x ∈ sortDesc key (x :: xs) :=
        (mem_sortDesc key _ x).mpr (List.mem_cons_self x xs)
      rw [h] at hx
      exact absurd hx (List.not_mem_nil x)
  · intro h; subst h; rfl

/-- C9.  The value parser returns exactly the first candidate that parses as
a decimal number, and `None` when no candidate parses; being a total
function of the candidate list, it never raises, and a parse failure just
moves on to the next candidate. -/
theorem value_parser_first_decimal (values : List RawVal) :
    get_valid_float_value values = values.findSome? parsesAsDecimal := by
  induction values with
  | nil => rfl
  | cons v rest ih =>
    cases v <;>
      simp [get_valid_float_value, parsesAsDecimal, List.findSome?_cons, ih]

/-- C1.  The statement-filter stage (the 3-year window filter of
`get_comprehensive_financial_data` composed with the future-date exclusion of
`select_best_financial_data`) returns exactly the subset of statements whose
period-end date is present, at least `today − 3 years`, and at most `today`;
in particular no statement in its output has a period-end date above
`today`. -/
theorem statement_filter_window (today : Nat) (l : List Stmt) :
    filterFuture today (filter3y today l) =
      l.filter (fun s => decide (s.CurrentPeriodEndDate ≠ 0 ∧
        today - 1095 ≤ s.CurrentPeriodEndDate ∧
        s.CurrentPeriodEndDate ≤ today))
    ∧ ∀ s ∈ filterFuture today (filter3y today l),
        s.CurrentPeriodEndDate ≤ today := by
  constructor
  · rw [filterFuture, filter3y, List.filter_filter]
    refine List.filter_congr ?_
    intro x hx
    simp only [Bool.decide_and, Bool.and_comm, Bool.and_assoc, Bool.and_left_comm]
  · intro s hs
    have := (List.mem_filter.mp hs).2
    simp only [decide_eq_true_eq] at this
    exact this.2

theorem select_fy_eq (today : Nat) (l : List Stmt)
    (hfy : fy_of today l ≠ []) :
    select_best_financial_data today l =
      match findFirst usable_eps (sortDesc stmtKey (fy_of today l)) with
      | some (s, _) => some { stmt := s }
      | none =>
        match sortDesc stmtKey (fy_of today l) with
        | [] => none
        | sel :: rest =>
          match findFirst usable_eps rest with
          | some (p, q) =>
            some { stmt := sel, FallbackEarningsPerShare := some q,
                   FallbackEPSPeriod := some p.CurrentPeriodEndDate }
          | none => some { stmt := sel } := by
  have hv : filterFuture today l ≠ [] := by
    intro h; exact hfy (by simp [fy_of, h])
  have hl : l ≠ [] := by
    intro h; exact hv (by simp [filterFuture, h])
  unfold select_best_financial_data
  rw [if_neg hl, if_neg hv, if_pos hfy]

theorem select_q_eq (today : Nat) (l : List Stmt)
    (hfy : fy_of today l = []) (hq : quarterly_of today l ≠ []) :
    select_best_financial_data today l =
      match findFirst usable_eps
          (sortDesc stmtKey (quarterly_of today l)) with
      | some (s, q) =>
        if s.TypeOfCurrentPeriod = PeriodType.Q1 ∨
            s.TypeOfCurrentPeriod = PeriodType.Q2 ∨
            s.TypeOfCurrentPeriod = PeriodType.Q3 then
          some { stmt := s, AnnualizedEarningsPerShare := some (q * 4) }
        else some { stmt := s }
      | none =>
        match sortDesc stmtKey (quarterly_of today l) with
        | [] => none
        | sel :: _ => some { stmt := sel } := by
  have hv : filterFuture today l ≠ [] := by
    intro h; exact hq (by simp [quarterly_of, h])
  have hl : l ≠ [] := by
    intro h; exact hv (by simp [filterFuture, h])
  unfold select_best_financial_data
  rw [if_neg hl, if_neg hv, if_neg (not_not_intro hfy), if_pos hq]

theorem mem_fy_of_FY {today : Nat} {l : List Stmt} {s : Stmt}
    (h : s ∈ fy_of today l) : s.TypeOfCurrentPeriod = PeriodType.FY := by
  have := (List.mem_filter.mp h).2
  simpa using this

/-- C2.  When the (future-date-filtered) collection contains an annual
statement, the selector returns an annual statement; and when some annual
statement has a present, non-zero trailing EPS, the returned statement is
annual, has a present non-zero EPS, and ranks at least as high — in the
descending `(period-end date, disclosure date)` order, ties in period-end
broken by disclosure date — as every annual statement with usable EPS, so a
statement with zero or absent EPS is never returned while a usable one
exists at equal or better rank. -/
theorem select_annual_first_usable (today : Nat) (l : List Stmt)
    (hfy : fy_of today l ≠ []) :
    (∃ sel, select_best_financial_data today l = some sel ∧
        sel.stmt.TypeOfCurrentPeriod = PeriodType.FY ∧
        sel.stmt ∈ fy_of today l)
    ∧ (∀ s ∈ fy_of today l, usable_eps s ≠ none →
        ∃ sel q, select_best_financial_data today l = some sel ∧
          sel.stmt ∈ fy_of today l ∧
          sel.stmt.TypeOfCurrentPeriod = PeriodType.FY ∧
          usable_eps sel.stmt = some q ∧ q ≠ 0 ∧
          ∀ t ∈ fy_of today l, usable_eps t ≠ none →
            lexGe (stmtKey sel.stmt) (stmtKey t)) := by
  have hred := select_fy_eq today l hfy
  constructor
  · cases hff : findFirst usable_eps (sortDesc stmtKey (fy_of today l)) with
    | some sv =>
      obtain ⟨s, v⟩ := sv
      obtain ⟨hmem, _⟩ := findFirst_eq_some _ _ _ _ hff
      have hmem' : s ∈ fy_of today l := (mem_sortDesc _ _ _).mp hmem
      refine ⟨{ stmt := s }, ?_, mem_fy_of_FY hmem', hmem'⟩
      rw [hred]; simp [hff]
    | none =>
      cases hss : sortDesc stmtKey (fy_of today l) with
      | nil =>
        exact absurd ((sortDesc_eq_nil_iff _ _).mp hss) hfy
      | cons sel rest =>
        have hmem : sel ∈ fy_of today l := by
          have : sel ∈ sortDesc stmtKey (fy_of today l) := by
            rw [hss]; exact List.mem_cons_self _ _
          exact (mem_sortDesc _ _ _).mp this
        cases hfr : findFirst usable_eps rest with
        | some pv =>
          obtain ⟨p, q⟩ := pv
          refine ⟨{ stmt := sel, FallbackEarningsPerShare := some q,
                    FallbackEPSPeriod := some p.CurrentPeriodEndDate },
                  ?_, mem_fy_of_FY hmem, hmem⟩
          rw [hss] at hff
          rw [hred, hss]; simp [hff, hfr]
        | none =>
          refine ⟨{ stmt := sel }, ?_, mem_fy_of_FY hmem, hmem⟩
          rw [hss] at hff
          rw [hred, hss]; simp [hff, hfr]
  · intro s hs hus
    cases hff : findFirst usable_eps (sortDesc stmtKey (fy_of today l)) with
    | none =>
      have : usable_eps s = none :=
        (findFirst_eq_none _ _).mp hff s ((mem_sortDesc _ _ _).mpr hs)
      exact absurd this hus
    | some sv =>
      obtain ⟨s0, v⟩ := sv
      obtain ⟨hmem, husv⟩ := findFirst_eq_some _ _ _ _ hff
      have hmem' : s0 ∈ fy_of today l := (mem_sortDesc _ _ _).mp hmem
      obtain ⟨hv0, _⟩ := usable_eps_eq_some husv
      refine ⟨{ stmt := s0 }, v, ?_, hmem', mem_fy_of_FY hmem', husv, hv0, ?_⟩
      · rw [hred]; simp [hff]
      · intro t ht htus
        exact findFirst_max stmtKey usable_eps _
          (pairwise_sortDesc stmtKey (fy_of today l)) s0 v hff t
          ((mem_sortDesc _ _ _).mpr ht) htus

/-- Reachability invariant of the selector's synthetic fields: a fallback
EPS is only attached when the selected statement's own EPS is unusable, and
an annualized EPS is only attached when the selected statement's own EPS is
usable and equals a quarter of it. -/
theorem select_inv (today : Nat) (l : List Stmt) (sel : Selected)
    (h : select_best_financial_data today l = some sel) :
    (sel.FallbackEarningsPerShare ≠ none → usable_eps sel.stmt = none)
    ∧ (∀ a, sel.AnnualizedEarningsPerShare = some a →
        ∃ q, usable_eps sel.stmt = some q ∧ a = q * 4) := by
  by_cases hfy : fy_of today l ≠ []
  · rw [select_fy_eq today l hfy] at h
    cases hff : findFirst usable_eps (sortDesc stmtKey (fy_of today l)) with
    | some sv =>
      obtain ⟨s, v⟩ := sv
      rw [hff] at h
      dsimp only at h
      cases h
      exact ⟨fun hc => absurd rfl hc, fun a ha => by simp at ha⟩
    | none =>
      rw [hff] at h
      cases hss : sortDesc stmtKey (fy_of today l) with
      | nil => rw [hss] at h; exact absurd h (by simp)
      | cons sel0 rest =>
        rw [hss] at h
        dsimp only at h
        have hsel0 : usable_eps sel0 = none := by
          refine (findFirst_eq_none usable_eps _).mp hff sel0 ?_
          rw [hss]; exact List.mem_cons_self _ _
        cases hfr : findFirst usable_eps rest with
        | some pv =>
          obtain ⟨p, q⟩ := pv
          rw [hfr] at h
          dsimp only at h
          cases h
          exact ⟨fun _ => hsel0, fun a ha => by simp at ha⟩
        | none =>
          rw [hfr] at h
          dsimp only at h
          cases h
          exact ⟨fun hc => absurd rfl hc, fun a ha => by simp at ha⟩
  · push_neg at hfy
    by_cases hq : quarterly_of today l ≠ []
    · rw [select_q_eq today l hfy hq] at h
      cases hff : findFirst usable_eps
          (sortDesc stmtKey (quarterly_of today l)) with
      | some sv =>
        obtain ⟨s, v⟩ := sv
        rw [hff] at h
        dsimp only at h
        obtain ⟨_, husv⟩ := findFirst_eq_some _ _ _ _ hff
        by_cases hqt : s.TypeOfCurrentPeriod = PeriodType.Q1 ∨
            s.TypeOfCurrentPeriod = PeriodType.Q2 ∨
            s.TypeOfCurrentPeriod = PeriodType.Q3
        · rw [if_pos hqt] at h
          cases h
          refine ⟨fun hc => absurd rfl hc, fun a ha => ⟨v, husv, ?_⟩⟩
          simpa using ha.symm
        · rw [if_neg hqt] at h
          cases h
          exact ⟨fun hc => absurd rfl hc, fun a ha => by simp at ha⟩
      | none =>
        rw [hff] at h
        cases hss : sortDesc stmtKey (quarterly_of today l) with
        | nil => rw [hss] at h; exact absurd h (by simp)
        | cons sel0 rest =>
          rw [hss] at h
          dsimp only at h
          cases h
          exact ⟨fun hc => absurd rfl hc, fun a ha => by simp at ha⟩
    · push_neg at hq
      by_cases hl : l = []
      · rw [hl] at h
        exact absurd h (by simp [select_best_financial_data])
      · by_cases hv : filterFuture today l = []
        · unfold select_best_financial_data at h
          rw [if_neg hl, if_pos hv] at h
          exact absurd h (by simp)
        · unfold select_best_financial_data at h
          rw [if_neg hl, if_neg hv, if_neg (not_not_intro hfy),
            if_neg (not_not_intro hq)] at h
          exact absurd h (by simp)

/-- C3.  For any statement produced by the selector, the trailing PER is
`round(price / eps, 2)` where `eps` is the first non-zero positive value in
the order: own trailing EPS, fallback EPS, annualized EPS — and absent when
no such value exists.  (The code skips fallback and annualized whenever the
own EPS is present and non-zero, but on selector outputs that only happens
when no positive fallback/annualized value exists, so the orders agree.) -/
theorem trailing_per_resolution (today : Nat) (l : List Stmt) (price : ℚ)
    (sel : Selected) (h : select_best_financial_data today l = some sel) :
    per_trailing price sel =
      (firstPositive
        [get_valid_float_value
          [sel.stmt.EarningsPerShare,
           sel.stmt.NonConsolidatedEarningsPerShare],
         sel.FallbackEarningsPerShare,
         sel.AnnualizedEarningsPerShare]).map
        (fun e => round2 (price / e)) := by
  obtain ⟨hfb, hann⟩ := select_inv today l sel h
  cases hown : get_valid_float_value
      [sel.stmt.EarningsPerShare, sel.stmt.NonConsolidatedEarningsPerShare] with
  | some e =>
    by_cases he : e = 0
    · subst he
      have husable : usable_eps sel.stmt = none := by
        simp [usable_eps, hown]
      have hann0 : sel.AnnualizedEarningsPerShare = none := by
        cases hA : sel.AnnualizedEarningsPerShare with
        | none => rfl
        | some a =>
          obtain ⟨q, hq, _⟩ := hann a hA
          rw [husable] at hq
          exact absurd hq (by simp)
      cases hfb0 : sel.FallbackEarningsPerShare with
      | some f =>
        by_cases hf : 0 < f
        · have hf0 : f ≠ 0 := ne_of_gt hf
          simp [per_trailing, trailing_eps, hown, hfb0, hann0, hf, hf0,
            firstPositive]
        · simp [per_trailing, trailing_eps, hown, hfb0, hann0, hf,
            firstPositive]
      | none =>
        simp [per_trailing, trailing_eps, hown, hfb0, hann0, firstPositive]
    · have husable : usable_eps sel.stmt = some e := by
        simp [usable_eps, hown, he]
      by_cases hpe : 0 < e
      · simp [per_trailing, trailing_eps, hown, he, hpe, firstPositive]
      · have hfb0 : sel.FallbackEarningsPerShare = none := by
          cases hF : sel.FallbackEarningsPerShare with
          | none => rfl
          | some f =>
            have h0 := hfb (by simp [hF])
            rw [husable] at h0
            exact absurd h0 (by simp)
        cases hA : sel.AnnualizedEarningsPerShare with
        | none =>
          simp [per_trailing, trailing_eps, hown, he, hpe, firstPositive,
            hfb0, hA]
        | some a =>
          obtain ⟨q, hq, ha⟩ := hann a hA
          rw [husable] at hq
          injection hq with hqe
          have hna : ¬ 0 < a := by
            rw [ha, ← hqe]
            intro hc
            have : 0 < e := by linarith
            exact hpe this
          simp [per_trailing, trailing_eps, hown, he, hpe, firstPositive,
            hfb0, hA, hna]
  | none =>
    have husable : usable_eps sel.stmt = none := by
      simp [usable_eps, hown]
    have hann0 : sel.AnnualizedEarningsPerShare = none := by
      cases hA : sel.AnnualizedEarningsPerShare with
      | none => rfl
      | some a =>
        obtain ⟨q, hq, _⟩ := hann a hA
        rw [husable] at hq
        exact absurd hq (by simp)
    cases hfb0 : sel.FallbackEarningsPerShare with
    | some f =>
      by_cases hf : 0 < f
      · have hf0 : f ≠ 0 := ne_of_gt hf
        simp [per_trailing, trailing_eps, hown, hfb0, hann0, hf, hf0,
          firstPositive]
      · simp [per_trailing, trailing_eps, hown, hfb0, hann0, hf,
          firstPositive]
    | none =>
      simp [per_trailing, trailing_eps, hown, hfb0, hann0, firstPositive]

theorem inBand_pos_iff (p b : ℚ) :
    (inBand (if 0 < b then some (p / b) else none) = true) ↔
      (0 < b ∧ 1/20 ≤ p / b ∧ p / b ≤ 20) := by
  by_cases hb : 0 < b
  · simp [inBand, hb]
  · simp [inBand, hb]

theorem inBand_some (x : ℚ) :
    inBand (some x) = decide (1/20 ≤ x ∧ x ≤ 20) := rfl

theorem inBand_none : inBand none = false := rfl

theorem accept_eq (price b : ℚ) :
    (match (if inBand (if 0 < b then some (price / b) else none) = true
        then some b else none : Option ℚ) with
      | some c => if 0 < c then some (round2 (price / c)) else none
      | none => none)
    = if 0 < b ∧ 1/20 ≤ price / b ∧ price / b ≤ 20 then
        some (round2 (price / b)) else none := by
  by_cases hb : 0 < b
  · rw [if_pos hb, inBand_some]
    by_cases hband : (1:ℚ)/20 ≤ price / b ∧ price / b ≤ 20
    · rw [if_pos (decide_eq_true hband)]
      dsimp only
      rw [if_pos hb, if_pos ⟨hb, hband⟩]
    · have hd : ¬ (decide ((1:ℚ)/20 ≤ price / b ∧ price / b ≤ 20) = true) :=
        fun hc => hband (of_decide_eq_true hc)
      rw [if_neg hd, if_neg (fun hc : 0 < b ∧ (1:ℚ)/20 ≤ price / b ∧
        price / b ≤ 20 => hband hc.2)]
  · rw [if_neg hb, inBand_none]
    rw [if_neg (by simp : ¬((false : Bool) = true)),
      if_neg (fun hc : 0 < b ∧ (1:ℚ)/20 ≤ price / b ∧ price / b ≤ 20 =>
        hb hc.1)]

/-- C4.  When the direct BPS fields are absent or non-positive, the PBR is
exactly the claim's manual reconstruction: positive effective shares
required, thousands-unit hypothesis checked first and accepted iff its
implied PBR lies in `[0.05, 20]`, else the as-is hypothesis under the same
band, else absent (so when both would qualify, the thousands-unit hypothesis
wins, being checked first). -/
theorem pbr_manual_reconstruction (price : ℚ) (sel : Selected)
    (h : ∀ b, get_valid_float_value
        [sel.stmt.BookValuePerShare,
         sel.stmt.NonConsolidatedBookValuePerShare] = some b → b ≤ 0) :
    pbr_calc price sel = spec_pbr_reconstruction price sel := by
  have hstep : pbr_calc price sel =
      match manual_bps price sel with
      | some c => if 0 < c then some (round2 (price / c)) else none
      | none => none := by
    unfold pbr_calc
    cases hb : get_valid_float_value
        [sel.stmt.BookValuePerShare,
         sel.stmt.NonConsolidatedBookValuePerShare] with
    | none => simp
    | some b =>
      have hnb : ¬ 0 < b := not_lt.mpr (h b hb)
      simp [hnb]
  rw [hstep]
  unfold manual_bps spec_pbr_reconstruction
  cases hE : get_valid_float_value
      [sel.stmt.Equity, sel.stmt.NonConsolidatedEquity] with
  | none => simp
  | some e =>
    cases hS : get_valid_float_value
        [sel.stmt.NumberOfIssuedAndOutstandingSharesAtTheEndOfFiscalYearIncludingTreasuryStock,
         sel.stmt.AverageNumberOfShares] with
    | none => simp
    | some sh =>
      dsimp only
      by_cases hes : e ≠ 0 ∧ sh ≠ 0
      · rw [if_pos hes, if_pos hes]
        by_cases heff : 0 < sh - (get_valid_float_value
            [sel.stmt.NumberOfTreasuryStockAtTheEndOfFiscalYear]).getD 0
        · rw [if_pos heff, if_pos heff]
          set tr := (get_valid_float_value
            [sel.stmt.NumberOfTreasuryStockAtTheEndOfFiscalYear]).getD 0 with htr
          set raw := e / (sh - tr) with hraw
          by_cases hT : 0 < raw * 1000 ∧ 1/20 ≤ price / (raw * 1000) ∧
              price / (raw * 1000) ≤ 20
          · have hbT : inBand (if 0 < raw * 1000 then
                some (price / (raw * 1000)) else none) = true :=
              (inBand_pos_iff price (raw * 1000)).mpr hT
            rw [if_pos hbT, if_pos hT]
            dsimp only
            rw [if_pos hT.1]
          · have hbT : ¬ (inBand (if 0 < raw * 1000 then
                some (price / (raw * 1000)) else none) = true) :=
              fun hc => hT ((inBand_pos_iff price (raw * 1000)).mp hc)
            rw [if_neg hbT, if_neg hT]
            exact accept_eq price raw
        · rw [if_neg heff, if_neg heff]
      · rw [if_neg hes, if_neg hes]

theorem search_forecast_pos {today : Nat} {l : List Stmt} {f : ℚ}
    (h : search_forecast_eps_in_statements today l = some f) : 0 < f := by
  unfold search_forecast_eps_in_statements at h
  by_cases hl : l = []
  · rw [if_pos hl] at h; exact absurd h (by simp)
  · rw [if_neg hl] at h
    rcases Option.map_eq_some'.mp h with ⟨⟨s, v⟩, hfind, hv⟩
    obtain ⟨_, hus⟩ := findFirst_eq_some _ _ _ _ hfind
    obtain ⟨hpos, _⟩ := usable_forecast_eq_some hus
    simpa [← hv] using hpos

/-- C6.  The forward PER is `round(price / f, 2)` where `f` is the selected
statement's own forward EPS (consolidated, else non-consolidated) when that
is usable (positive); otherwise the first usable forward EPS found by
scanning the whole filtered collection in descending
`(period-end date, disclosure date)` order; and it is absent when neither
source yields a value.  The scan result is characterised declaratively: it
is a positive forward EPS of some eligible statement ranking at least as
high as every eligible statement with a usable forward EPS, and a `none`
scan means no eligible statement has a usable forward EPS. -/
theorem forward_per_resolution (price : ℚ) (today : Nat) (sel : Selected)
    (l : List Stmt) :
    (∀ f, get_valid_float_value
        [sel.stmt.ForecastEarningsPerShare,
         sel.stmt.ForecastNonConsolidatedEarningsPerShare] = some f →
      0 < f → per_forecast price today sel l = some (round2 (price / f)))
    ∧ ((∀ f, get_valid_float_value
          [sel.stmt.ForecastEarningsPerShare,
           sel.stmt.ForecastNonConsolidatedEarningsPerShare] = some f →
            f ≤ 0) →
        per_forecast price today sel l =
          (search_forecast_eps_in_statements today l).map
            (fun f => round2 (price / f)))
    ∧ (∀ f, search_forecast_eps_in_statements today l = some f →
        0 < f ∧ ∃ s ∈ l, s.CurrentPeriodEndDate ≤ today ∧
          usable_forecast s = some f ∧
          ∀ t ∈ l, t.CurrentPeriodEndDate ≤ today →
            usable_forecast t ≠ none → lexGe (stmtKey s) (stmtKey t))
    ∧ (search_forecast_eps_in_statements today l = none →
        ∀ t ∈ l, t.CurrentPeriodEndDate ≤ today → usable_forecast t = none) := by
  refine ⟨?_, ?_, ?_, ?_⟩
  · intro f hf hpos
    unfold per_forecast
    rw [hf]
    dsimp only
    rw [if_pos hpos]
  · intro hle
    unfold per_forecast
    cases hown : get_valid_float_value
        [sel.stmt.ForecastEarningsPerShare,
         sel.stmt.ForecastNonConsolidatedEarningsPerShare] with
    | none =>
      dsimp only
      cases hs : search_forecast_eps_in_statements today l with
      | none => simp
      | some f => simp [search_forecast_pos hs]
    | some f =>
      have hnp : ¬ 0 < f := not_lt.mpr (hle f hown)
      dsimp only
      rw [if_neg hnp]
      cases hs : search_forecast_eps_in_statements today l with
      | none => simp
      | some g => simp [search_forecast_pos hs]
  · intro f hf
    have hpos := search_forecast_pos hf
    unfold search_forecast_eps_in_statements at hf
    by_cases hl : l = []
    · rw [if_pos hl] at hf; exact absurd hf (by simp)
    · rw [if_neg hl] at hf
      rcases Option.map_eq_some'.mp hf with ⟨⟨s, v⟩, hfind, hv⟩
      have hvf : v = f := by simpa using hv
      subst hvf
      obtain ⟨hmem, hus⟩ := findFirst_eq_some _ _ _ _ hfind
      have hmem2 := (mem_sortDesc _ _ _).mp hmem
      have hmem3 := List.mem_filter.mp hmem2
      refine ⟨hpos, s, hmem3.1, by simpa using hmem3.2, hus, ?_⟩
      intro t ht htle htus
      refine findFirst_max stmtKey usable_forecast _
        (pairwise_sortDesc _ _) s v hfind t ?_ htus
      exact (mem_sortDesc _ _ _).mpr
        (List.mem_filter.mpr ⟨ht, by simpa using htle⟩)
  · intro hnone t ht htle
    unfold search_forecast_eps_in_statements at hnone
    by_cases hl : l = []
    · subst hl; exact absurd ht (List.not_mem_nil t)
    · rw [if_neg hl] at hnone
      have hfind := Option.map_eq_none'.mp hnone
      exact (findFirst_eq_none _ _).mp hfind t
        ((mem_sortDesc _ _ _).mpr
          (List.mem_filter.mpr ⟨ht, by simpa using htle⟩))

theorem round2_nonneg {x : ℚ} (h : 0 ≤ x) : 0 ≤ round2 x := by
  unfold round2
  have h1 : (0 : ℤ) ≤ round (100 * x) := by
    rw [round_eq]
    have h2 : (0:ℚ) ≤ 100 * x + 1/2 := by linarith
    exact Int.le_floor.mpr (by exact_mod_cast h2)
  exact div_nonneg (by exact_mod_cast h1) (by norm_num)

/-- C7 (amended).  Every present trailing PER, forward PER, or PBR equals
`round(price / d, 2)` for some strictly positive resolved denominator `d`
(so a zero or negative source EPS/BPS never produces a ratio and no division
by zero occurs), and with a non-negative price every present value is
non-negative — but rounding can make it exactly `0`, so "positive" does not
hold in general. -/
theorem ratios_from_positive_denominator (price : ℚ) (today : Nat)
    (l : List Stmt) :
    (∀ v, (financial_ratios price today l).1 = some v →
      ∃ d, 0 < d ∧ v = round2 (price / d) ∧ (0 ≤ price → 0 ≤ v))
    ∧ (∀ v, (financial_ratios price today l).2.1 = some v →
      ∃ d, 0 < d ∧ v = round2 (price / d) ∧ (0 ≤ price → 0 ≤ v))
    ∧ (∀ v, (financial_ratios price today l).2.2 = some v →
      ∃ d, 0 < d ∧ v = round2 (price / d) ∧ (0 ≤ price → 0 ≤ v)) := by
  have mk : ∀ d v : ℚ, 0 < d → round2 (price / d) = v →
      ∃ e, 0 < e ∧ v = round2 (price / e) ∧ (0 ≤ price → 0 ≤ v) := by
    intro d v hd hv
    exact ⟨d, hd, hv.symm,
      fun hp => hv ▸ round2_nonneg (div_nonneg hp hd.le)⟩
  unfold financial_ratios
  cases hsel : select_best_financial_data today l with
  | none => exact ⟨fun v hv => by simp at hv, fun v hv => by simp at hv,
      fun v hv => by simp at hv⟩
  | some sel =>
    refine ⟨?_, ?_, ?_⟩
    · intro v hv
      dsimp only at hv
      unfold per_trailing at hv
      cases he : trailing_eps sel with
      | none => rw [he] at hv; exact absurd hv (by simp)
      | some e =>
        rw [he] at hv
        dsimp only at hv
        by_cases hpe : 0 < e
        · rw [if_pos hpe] at hv
          injection hv with hv
          exact mk e v hpe hv
        · rw [if_neg hpe] at hv
          exact absurd hv (by simp)
    · intro v hv
      dsimp only at hv
      simp only [per_forecast] at hv
      cases hown : get_valid_float_value
          [sel.stmt.ForecastEarningsPerShare,
           sel.stmt.ForecastNonConsolidatedEarningsPerShare] with
      | some f =>
        rw [hown] at hv
        dsimp only at hv
        by_cases hpf : 0 < f
        · rw [if_pos hpf] at hv
          injection hv with hv
          exact mk f v hpf hv
        · rw [if_neg hpf] at hv
          cases hs : search_forecast_eps_in_statements today l with
          | none => rw [hs] at hv; exact absurd hv (by simp)
          | some g =>
            have hg := search_forecast_pos hs
            rw [hs] at hv
            dsimp only at hv
            rw [if_pos hg] at hv
            injection hv with hv
            exact mk g v hg hv
      | none =>
        rw [hown] at hv
        dsimp only at hv
        cases hs : search_forecast_eps_in_statements today l with
        | none => rw [hs] at hv; exact absurd hv (by simp)
        | some g =>
          have hg := search_forecast_pos hs
          rw [hs] at hv
          dsimp only at hv
          rw [if_pos hg] at hv
          injection hv with hv
          exact mk g v hg hv
    · intro v hv
      dsimp only at hv
      simp only [pbr_calc] at hv
      cases hb : get_valid_float_value
          [sel.stmt.BookValuePerShare,
           sel.stmt.NonConsolidatedBookValuePerShare] with
      | some b =>
        rw [hb] at hv
        dsimp only at hv
        by_cases hpb : 0 < b
        · rw [if_pos hpb] at hv
          injection hv with hv
          exact mk b v hpb hv
        · rw [if_neg hpb] at hv
          cases hm : manual_bps price sel with
          | none => rw [hm] at hv; exact absurd hv (by simp)
          | some c =>
            rw [hm] at hv
            dsimp only at hv
            by_cases hpc : 0 < c
            · rw [if_pos hpc] at hv
              injection hv with hv
              exact mk c v hpc hv
            · rw [if_neg hpc] at hv
              exact absurd hv (by simp)
      | none =>
        rw [hb] at hv
        dsimp only at hv
        cases hm : manual_bps price sel with
        | none => rw [hm] at hv; exact absurd hv (by simp)
        | some c =>
          rw [hm] at hv
          dsimp only at hv
          by_cases hpc : 0 < c
          · rw [if_pos hpc] at hv
            injection hv with hv
            exact mk c v hpc hv
          · rw [if_neg hpc] at hv
            exact absurd hv (by simp)

/-- C8.  Per-code processing is total: every code yields a result row
carrying its code; the `/listed/info` outcome influences only the name
field (and a failed call leaves it `''`); the statements-fetch outcome
influences only the three ratio fields (and a raised fetch leaves them
absent); a failed price lookup (raised, or non-2xx with failed retry)
yields a row with the price and ratio fields absent and the name still
computed; and the run aborts — before any per-code processing — exactly
when the credential is missing or the token exchange fails, otherwise
producing one row per requested code. -/
theorem error_isolation (today code : Nat) (inp : StockInput)
    (codes : List Nat) (inputs : Nat → StockInput) (tok idTok : String)
    (authResp : Resp String) :
    (get_stock_data today code inp).code = code
    ∧ (∀ r1 r2 : Resp (List String),
        stripName (get_stock_data today code { inp with info := r1 }) =
          stripName (get_stock_data today code { inp with info := r2 }))
    ∧ (get_stock_data today code { inp with info := Resp.raised }).name = ""
    ∧ (get_stock_data today code { inp with info := Resp.httpError }).name = ""
    ∧ (∀ p1 p2 : List PageResp,
        stripRatios (get_stock_data today code { inp with pages := p1 }) =
          stripRatios (get_stock_data today code { inp with pages := p2 }))
    ∧ (get_stock_data today code
        { inp with pages := [PageResp.raised] }).perTrailing = none
    ∧ (get_stock_data today code
        { inp with pages := [PageResp.raised] }).perForward = none
    ∧ (get_stock_data today code
        { inp with pages := [PageResp.raised] }).pbr = none
    ∧ get_stock_data today code { inp with price1 := Resp.raised } =
        { code := code, name := nameOf inp.info, price := none,
          priceDate := none, analysisDate := none, perTrailing := none,
          perForward := none, pbr := none }
    ∧ get_stock_data today code
        { inp with price1 := Resp.httpError, price2 := Resp.raised } =
        { code := code, name := nameOf inp.info, price := none,
          priceDate := none, analysisDate := none, perTrailing := none,
          perForward := none, pbr := none }
    ∧ get_stock_data today code
        { inp with price1 := Resp.httpError, price2 := Resp.httpError } =
        { code := code, name := nameOf inp.info, price := none,
          priceDate := none, analysisDate := none, perTrailing := none,
          perForward := none, pbr := none }
    ∧ main_model none authResp today codes inputs = none
    ∧ main_model (some tok) Resp.httpError today codes inputs = none
    ∧ main_model (some tok) Resp.raised today codes inputs = none
    ∧ main_model (some tok) (Resp.ok idTok) today codes inputs =
        some (codes.map (fun c => get_stock_data today c (inputs c))) := by
  refine ⟨?_, ?_, ?_, ?_, ?_, ?_, ?_, ?_, rfl, rfl, rfl, rfl, rfl, rfl, rfl⟩
  · simp only [get_stock_data]
    cases hq : price_result inp.price1 inp.price2 with
    | none => rfl
    | some q =>
      dsimp only
      cases hc : q.Close with
      | none => rfl
      | some p =>
        dsimp only
        by_cases hp : p = 0
        · simp [hp]
        · simp [hp]
  · intro r1 r2
    simp only [get_stock_data]
    cases hq : price_result inp.price1 inp.price2 with
    | none => rfl
    | some q =>
      dsimp only
      cases hc : q.Close with
      | none => rfl
      | some p =>
        dsimp only
        by_cases hp : p = 0
        · simp [hp, stripName]
        · simp [hp, stripName]
  · simp only [get_stock_data]
    cases hq : price_result inp.price1 inp.price2 with
    | none => rfl
    | some q =>
      dsimp only
      cases hc : q.Close with
      | none => rfl
      | some p =>
        dsimp only
        by_cases hp : p = 0
        · simp [hp, nameOf]
        · simp [hp, nameOf]
  · simp only [get_stock_data]
    cases hq : price_result inp.price1 inp.price2 with
    | none => rfl
    | some q =>
      dsimp only
      cases hc : q.Close with
      | none => rfl
      | some p =>
        dsimp only
        by_cases hp : p = 0
        · simp [hp, nameOf]
        · simp [hp, nameOf]
  · intro p1 p2
    simp only [get_stock_data]
    cases hq : price_result inp.price1 inp.price2 with
    | none => rfl
    | some q =>
      dsimp only
      cases hc : q.Close with
      | none => rfl
      | some p =>
        dsimp only
        by_cases hp : p = 0
        · simp [hp, stripRatios]
        · simp [hp, stripRatios]
  · simp only [get_stock_data]
    cases hq : price_result inp.price1 inp.price2 with
    | none => rfl
    | some q =>
      dsimp only
      cases hc : q.Close with
      | none => rfl
      | some p =>
        dsimp only
        by_cases hp : p = 0
        · simp [hp]
        · simp [hp, get_comprehensive_financial_data, fetch_pages]
  · simp only [get_stock_data]
    cases hq : price_result inp.price1 inp.price2 with
    | none => rfl
    | some q =>
      dsimp only
      cases hc : q.Close with
      | none => rfl
      | some p =>
        dsimp only
        by_cases hp : p = 0
        · simp [hp]
        · simp [hp, get_comprehensive_financial_data, fetch_pages]
  · simp only [get_stock_data]
    cases hq : price_result inp.price1 inp.price2 with
    | none => rfl
    | some q =>
      dsimp only
      cases hc : q.Close with
      | none => rfl
      | some p =>
        dsimp only
        by_cases hp : p = 0
        · simp [hp]
        · simp [hp, get_comprehensive_financial_data, fetch_pages]

/-- The `statements` payload of a page response. -/
def pagePayload : PageResp → List Stmt
  | PageResp.ok stmts _ => stmts
  | _ => []

/-- A page that keeps the pagination loop going: successful, non-empty
payload, with a pagination key. -/
def Continuing (p : PageResp) : Prop :=
  ∃ stmts k, p = PageResp.ok stmts (some k) ∧ stmts ≠ []

theorem fetch_pages_append (ps rest : List PageResp) (acc : List Stmt)
    (hps : ∀ p ∈ ps, Continuing p) :
    fetch_pages (ps ++ rest) acc =
      fetch_pages rest (acc ++ (ps.map pagePayload).flatten) := by
  induction ps generalizing acc with
  | nil => simp
  | cons p ps ih =>
    obtain ⟨stmts, k, rfl, hne⟩ := hps p (List.mem_cons_self _ _)
    have hrest : ∀ q ∈ ps, Continuing q :=
      fun q hq => hps q (List.mem_cons_of_mem _ hq)
    simp only [List.cons_append, fetch_pages]
    rw [if_neg hne]
    rw [show ps.append rest = ps ++ rest from rfl, ih (acc ++ stmts) hrest]
    simp [pagePayload, List.append_assoc]

/-- Statement used in the concrete partial-history scenario: an annual
statement with trailing EPS 150. -/
def pageFY : Stmt :=
  { CurrentPeriodEndDate := 2000, DisclosedDate := 2010,
    TypeOfCurrentPeriod := PeriodType.FY,
    EarningsPerShare := RawVal.numStr 150 }

/-- C10.  If a statements page request fails with a non-2xx status after
earlier pages succeeded, the fetch stops and the already-collected
statements are still filtered to the 3-year window and returned (and, as the
concrete scenario shows, flow into selection and ratio computation: one
successful page then an HTTP failure still yields a trailing PER); whereas a
raised exception makes the fetch return `[]`, discarding all previously
fetched pages. -/
theorem pagination_keeps_collected (today : Nat) (ps rest : List PageResp)
    (hps : ∀ p ∈ ps, Continuing p) :
    get_comprehensive_financial_data today (ps ++ PageResp.httpError :: rest)
        = filter3y today (ps.map pagePayload).flatten
    ∧ get_comprehensive_financial_data today (ps ++ PageResp.raised :: rest)
        = []
    ∧ (get_stock_data 3000 7203
        { info := Resp.ok ["T"],
          price1 := Resp.ok [{ Close := some 2500, Date := 1500 }],
          price2 := Resp.raised,
          pages := [PageResp.ok [pageFY] (some 1), PageResp.httpError]
        }).perTrailing = some (1667/100) := by
  refine ⟨?_, ?_, ?_⟩
  · unfold get_comprehensive_financial_data
    rw [fetch_pages_append ps (PageResp.httpError :: rest) [] hps]
    simp [fetch_pages]
  · unfold get_comprehensive_financial_data
    rw [fetch_pages_append ps (PageResp.raised :: rest) [] hps]
    simp [fetch_pages]
  · have hstmts : get_comprehensive_financial_data 3000
        [PageResp.ok [pageFY] (some 1), PageResp.httpError] =
        [pageFY] := by
      norm_num [get_comprehensive_financial_data, fetch_pages, filter3y,
        pageFY]
    have hsel : select_best_financial_data 3000 [pageFY] =
        some { stmt := pageFY } := by
      norm_num [select_best_financial_data, filterFuture, fy_of,
        quarterly_of, sortDesc, insertDesc, findFirst, usable_eps,
        get_valid_float_value, pageFY]
    have hper : per_trailing 2500 { stmt := pageFY } =
        some (1667/100) := by
      norm_num [per_trailing, trailing_eps, get_valid_float_value,
        pageFY, round2, round_eq]
    simp only [get_stock_data, price_result]
    norm_num [financial_ratios, hstmts, hsel, hper]

/-- Quarterly statement used in the C5 scenario: a Q2 statement with
trailing EPS 40 (quarterly-only data). -/
def q2ex : Stmt :=
  { CurrentPeriodEndDate := 2000, DisclosedDate := 2010,
    TypeOfCurrentPeriod := PeriodType.Q2,
    EarningsPerShare := RawVal.numStr 40 }

/-- C5 (code bug).  On quarterly-only data the selector does attach the
annualized EPS `40 × 4 = 160`, but the trailing PER is computed from the raw
quarterly EPS 40 (`2500 / 40 = 62.5`), not from the annualized 160
(`round(2500/160, 2) = 15.63`): the consuming branch in `get_stock_data`
only runs when the statement's own EPS is absent or zero, yet the metadata
is only attached when the own EPS is non-zero, so the annualized EPS is
never used for the trailing PER. -/
theorem quarterly_annualized_attached_but_unused :
    select_best_financial_data 3000 [q2ex] =
      some { stmt := q2ex, AnnualizedEarningsPerShare := some 160 }
    ∧ financial_ratios 2500 3000 [q2ex] = (some (125/2), none, none)
    ∧ round2 ((2500 : ℚ) / 160) = 1563/100
    ∧ (125/2 : ℚ) ≠ 1563/100 := by
  have hsel : select_best_financial_data 3000 [q2ex] =
      some { stmt := q2ex, AnnualizedEarningsPerShare := some 160 } := by
    rw [select_q_eq 3000 [q2ex] (by decide) (by decide)]
    rw [show findFirst usable_eps
        (sortDesc stmtKey (quarterly_of 3000 [q2ex])) = some (q2ex, 40)
      from by decide]
    norm_num [q2ex]
  have hper : per_trailing 2500
      { stmt := q2ex, AnnualizedEarningsPerShare := some 160 } =
      some (125/2) := by
    have h1 : trailing_eps
        { stmt := q2ex, AnnualizedEarningsPerShare := some 160 } =
        some 40 := by decide
    unfold per_trailing
    rw [h1]
    norm_num [round2, round_eq]
  have hfor : per_forecast 2500 3000
      { stmt := q2ex, AnnualizedEarningsPerShare := some 160 } [q2ex] =
      none := by
    norm_num [per_forecast, search_forecast_eps_in_statements,
      usable_forecast, findFirst, sortDesc, insertDesc,
      get_valid_float_value, q2ex]
  have hpbr : pbr_calc 2500
      { stmt := q2ex, AnnualizedEarningsPerShare := some 160 } = none := by
    norm_num [pbr_calc, manual_bps, get_valid_float_value, q2ex]
  refine ⟨hsel, ?_, by norm_num [round2, round_eq], by norm_num⟩
  unfold financial_ratios
  rw [hsel]
  dsimp only
  rw [hper, hfor, hpbr]

/-- Annual statement with a huge trailing EPS, for the C7 counterexample. -/
def fyHugeEPS : Stmt :=
  { CurrentPeriodEndDate := 2000, DisclosedDate := 2010,
    TypeOfCurrentPeriod := PeriodType.FY,
    EarningsPerShare := RawVal.numStr 1000000 }

/-- C7 (counterexample).  A present trailing PER need not be positive: with
price 100 and a selected statement whose EPS is 1,000,000 the trailing PER
`round(100 / 1000000, 2) = round(0.0001, 2)` is present and equals exactly
`0`. -/
theorem trailing_per_present_but_zero :
    financial_ratios 100 3000 [fyHugeEPS] = (some 0, none, none)
    ∧ ¬ (0 : ℚ) < 0 := by
  have hsel : select_best_financial_data 3000 [fyHugeEPS] =
      some { stmt := fyHugeEPS } := by
    rw [select_fy_eq 3000 [fyHugeEPS] (by decide)]
    rw [show findFirst usable_eps
        (sortDesc stmtKey (fy_of 3000 [fyHugeEPS])) =
        some (fyHugeEPS, 1000000) from by decide]
  have hper : per_trailing 100 { stmt := fyHugeEPS } = some 0 := by
    have h1 : trailing_eps { stmt := fyHugeEPS } = some 1000000 := by decide
    unfold per_trailing
    rw [h1]
    norm_num [round2, round_eq]
  have hfor : per_forecast 100 3000 { stmt := fyHugeEPS } [fyHugeEPS] =
      none := by
    norm_num [per_forecast, search_forecast_eps_in_statements,
      usable_forecast, findFirst, sortDesc, insertDesc,
      get_valid_float_value, fyHugeEPS]
  have hpbr : pbr_calc 100 { stmt := fyHugeEPS } = none := by
    norm_num [pbr_calc, manual_bps, get_valid_float_value, fyHugeEPS]
  refine ⟨?_, by norm_num⟩
  unfold financial_ratios
  rw [hsel]
  dsimp only
  rw [hper, hfor, hpbr]

/-- Example annual statement (EPS 5) for the C2 witness. -/
def fyW : Stmt :=
  { CurrentPeriodEndDate := 2000, DisclosedDate := 2010,
    TypeOfCurrentPeriod := PeriodType.FY,
    EarningsPerShare := RawVal.numStr 5 }

theorem select_annual_first_usable_witness :
    fy_of 3000 [fyW] ≠ [] ∧
    ((∃ sel, select_best_financial_data 3000 [fyW] = some sel ∧
        sel.stmt.TypeOfCurrentPeriod = PeriodType.FY ∧
        sel.stmt ∈ fy_of 3000 [fyW])
    ∧ (∀ s ∈ fy_of 3000 [fyW], usable_eps s ≠ none →
        ∃ sel q, select_best_financial_data 3000 [fyW] = some sel ∧
          sel.stmt ∈ fy_of 3000 [fyW] ∧
          sel.stmt.TypeOfCurrentPeriod = PeriodType.FY ∧
          usable_eps sel.stmt = some q ∧ q ≠ 0 ∧
          ∀ t ∈ fy_of 3000 [fyW], usable_eps t ≠ none →
            lexGe (stmtKey sel.stmt) (stmtKey t))) :=
  ⟨by decide, select_annual_first_usable 3000 [fyW] (by decide)⟩

/-- Example annual statement (EPS 8) for the C3 witness. -/
def fyW3 : Stmt :=
  { CurrentPeriodEndDate := 2000, DisclosedDate := 2010,
    TypeOfCurrentPeriod := PeriodType.FY,
    EarningsPerShare := RawVal.numStr 8 }

theorem trailing_per_resolution_witness :
    select_best_financial_data 3000 [fyW3] = some { stmt := fyW3 } ∧
    per_trailing 100 { stmt := fyW3 } =
      (firstPositive
        [get_valid_float_value
          [({ stmt := fyW3 } : Selected).stmt.EarningsPerShare,
           ({ stmt := fyW3 } : Selected).stmt.NonConsolidatedEarningsPerShare],
         ({ stmt := fyW3 } : Selected).FallbackEarningsPerShare,
         ({ stmt := fyW3 } : Selected).AnnualizedEarningsPerShare]).map
        (fun e => round2 (100 / e)) := by
  have hsel : select_best_financial_data 3000 [fyW3] =
      some { stmt := fyW3 } := by
    rw [select_fy_eq 3000 [fyW3] (by decide)]
    rw [show findFirst usable_eps (sortDesc stmtKey (fy_of 3000 [fyW3])) =
      some (fyW3, 8) from by decide]
  exact ⟨hsel, trailing_per_resolution 3000 [fyW3] 100 _ hsel⟩

/-- The claim's concrete PBR-reconstruction input: equity 1,000,000, shares
100,000, treasury 0, no direct BPS fields. -/
def pbrExStmt : Stmt :=
  { CurrentPeriodEndDate := 2000, DisclosedDate := 2010,
    TypeOfCurrentPeriod := PeriodType.FY,
    Equity := RawVal.numStr 1000000,
    NumberOfIssuedAndOutstandingSharesAtTheEndOfFiscalYearIncludingTreasuryStock :=
      RawVal.numStr 100000,
    NumberOfTreasuryStockAtTheEndOfFiscalYear := RawVal.numStr 0 }

/-- The claim's concrete input as a selected statement. -/
def pbrEx : Selected := { stmt := pbrExStmt }

theorem pbr_manual_reconstruction_witness :
    (∀ b, get_valid_float_value
        [pbrEx.stmt.BookValuePerShare,
         pbrEx.stmt.NonConsolidatedBookValuePerShare] = some b → b ≤ 0)
    ∧ pbr_calc 100 pbrEx = spec_pbr_reconstruction 100 pbrEx
    ∧ pbr_calc 100 pbrEx = some 10 := by
  have h : ∀ b, get_valid_float_value
      [pbrEx.stmt.BookValuePerShare,
       pbrEx.stmt.NonConsolidatedBookValuePerShare] = some b → b ≤ 0 := by
    intro b hb
    simp [pbrEx, get_valid_float_value] at hb
  have hval : pbr_calc 100 pbrEx = some 10 := by
    norm_num [pbr_calc, manual_bps, inBand, get_valid_float_value, pbrEx,
      round2, round_eq]
  exact ⟨h, pbr_manual_reconstruction 100 pbrEx h, hval⟩

/-- Selected statement with forward EPS 120 for the C6 witness. -/
def fw6Stmt : Stmt :=
  { CurrentPeriodEndDate := 2000, DisclosedDate := 2010,
    TypeOfCurrentPeriod := PeriodType.FY,
    ForecastEarningsPerShare := RawVal.numStr 120 }

/-- The above as a selected statement. -/
def fw6 : Selected := { stmt := fw6Stmt }

theorem forward_per_resolution_witness :
    get_valid_float_value
      [fw6.stmt.ForecastEarningsPerShare,
       fw6.stmt.ForecastNonConsolidatedEarningsPerShare] = some 120
    ∧ (0 : ℚ) < 120
    ∧ per_forecast 2400 3000 fw6 [] = some (round2 (2400 / 120)) :=
  ⟨by decide, by norm_num,
    (forward_per_resolution 2400 3000 fw6 []).1 120 (by decide) (by norm_num)⟩

/-- Example annual statement (EPS 125) for the C7 witness. -/
def fyW7 : Stmt :=
  { CurrentPeriodEndDate := 2000, DisclosedDate := 2010,
    TypeOfCurrentPeriod := PeriodType.FY,
    EarningsPerShare := RawVal.numStr 125 }

theorem ratios_from_positive_denominator_witness :
    (financial_ratios 250 3000 [fyW7]).1 = some 2
    ∧ ∃ d, 0 < d ∧ (2 : ℚ) = round2 (250 / d) ∧
        ((0:ℚ) ≤ 250 → (0:ℚ) ≤ 2) := by
  have hsel : select_best_financial_data 3000 [fyW7] =
      some { stmt := fyW7 } := by
    rw [select_fy_eq 3000 [fyW7] (by decide)]
    rw [show findFirst usable_eps (sortDesc stmtKey (fy_of 3000 [fyW7])) =
      some (fyW7, 125) from by decide]
  have h1 : (financial_ratios 250 3000 [fyW7]).1 = some 2 := by
    unfold financial_ratios
    rw [hsel]
    dsimp only
    have ht : trailing_eps { stmt := fyW7 } = some 125 := by decide
    unfold per_trailing
    rw [ht]
    norm_num [round2, round_eq]
  exact ⟨h1, (ratios_from_positive_denominator 250 3000 [fyW7]).1 2 h1⟩

theorem pagination_keeps_collected_witness :
    (∀ p ∈ [PageResp.ok [pageFY] (some 5)], Continuing p)
    ∧ (get_comprehensive_financial_data 3000
          ([PageResp.ok [pageFY] (some 5)] ++ PageResp.httpError :: [])
        = filter3y 3000
            (([PageResp.ok [pageFY] (some 5)].map pagePayload).flatten)
      ∧ get_comprehensive_financial_data 3000
          ([PageResp.ok [pageFY] (some 5)] ++ PageResp.raised :: [])
        = []
      ∧ (get_stock_data 3000 7203
          { info := Resp.ok ["T"],
            price1 := Resp.ok [{ Close := some 2500, Date := 1500 }],
            price2 := Resp.raised,
            pages := [PageResp.ok [pageFY] (some 1), PageResp.httpError]
          }).perTrailing = some (1667/100)) := by
  have hp : ∀ p ∈ [PageResp.ok [pageFY] (some 5)], Continuing p := by
    intro p hpm
    simp only [List.mem_singleton] at hpm
    subst hpm
    exact ⟨[pageFY], 5, rfl, by simp⟩
  exact ⟨hp, pagination_keeps_collected 3000 [PageResp.ok [pageFY] (some 5)] [] hp⟩
